import Mathlib

/-!
A verification development for the `node-ws` repository (e.GO Digital's
simple web-socket layer).

The TypeScript sources are shallowly embedded as Lean definitions:

* JavaScript strings and Node `Buffer`s are modelled as `List Char`
  (one element per UTF-16/UTF-8 scalar; UTF-8 encoding is injective, so
  byte-for-byte equality of encoded buffers coincides with element-wise
  equality of the character lists).
* `JSON.stringify` / `JSON.parse` are modelled by an executable printer
  (`printVal`) and a fuel-indexed recursive-descent parser (`jsonParse`)
  over a JSON value type `JsVal`.  JSON numbers are restricted to
  integers (the repository's protocol logic never inspects numeric
  payloads, so float formatting is irrelevant to every claim).
* Asynchronous callbacks (promise resolutions of `socket.send`, handler
  outcomes) are linearised: a listener invocation is modelled as a pure
  step function from a connection state and an incoming frame to the
  post-synchronous state, the quiescent (all-promises-settled) state and
  a trace of observable actions (transport sends, emitted events).
  Transport write results and handler outcomes are oracle inputs.
-/

/-! ### JavaScript values (the image of `JSON.parse`) -/

/-- A JSON-representable JavaScript value, as produced by `JSON.parse`.
Strings and object keys are `List Char`; numbers are integers (see the
modelling notes above).  Object field lists keep parse order; duplicate
keys are possible and property access takes the last one, as in JS. -/
inductive JsVal where
  | null
  | bool (b : Bool)
  | num (n : Int)
  | str (s : List Char)
  | arr (cells : List JsVal)
  | obj (fields : List (List Char × JsVal))

/-- JavaScript truthiness is false exactly on the falsy values among the
`JsVal`s: `null`, `false`, `0` and the empty string (`NaN` has no model;
`undefined` is represented by `Option.none` at use sites). -/
def jsFalsy : JsVal → Bool
  | .null => true
  | .bool b => !b
  | .num n => n = 0
  | .str s => s.isEmpty
  | _ => false

/-- Property access `v[k]` on a parse result: on an object the binding
wins that comes last (JS keeps the last duplicate key); on every other
value the access yields `undefined`, i.e. `none`. -/
def getField (v : JsVal) (k : List Char) : Option JsVal :=
  match v with
  | .obj fields => lookupLastKey fields k
  | _ => none
where
  /-- Last-binding-wins association lookup. -/
  lookupLastKey : List (List Char × JsVal) → List Char → Option JsVal
    | [], _ => none
    | kv :: rest, k =>
      match lookupLastKey rest k with
      | some r => some r
      | none => if kv.1 = k then some kv.2 else none

/-! ### The printer (`JSON.stringify`) -/

/-- Hex digit character (lowercase) for a nibble, as `JSON.stringify`
produces inside control-character escapes. -/
def nibbleChar (d : Nat) : Char :=
  if d < 10 then Char.ofNat (48 + d) else Char.ofNat (87 + d)

/-- One string character, escaped the way `JSON.stringify` escapes it:
quote and backslash get two-character escapes, the named control
characters get theirs, the remaining control characters become
`\u00XX`, and everything else is copied verbatim. -/
def escChar (c : Char) : List Char :=
  if c = '"' then ['\\', '"']
  else if c = '\\' then ['\\', '\\']
  else if c.toNat = 8 then ['\\', 'b']
  else if c.toNat = 9 then ['\\', 't']
  else if c.toNat = 10 then ['\\', 'n']
  else if c.toNat = 12 then ['\\', 'f']
  else if c.toNat = 13 then ['\\', 'r']
  else if c.toNat < 32 then
    ['\\', 'u', '0', '0', nibbleChar (c.toNat / 16), nibbleChar (c.toNat % 16)]
  else [c]

/-- Escape every character of a string body. -/
def escAll : List Char → List Char
  | [] => []
  | c :: cs => escChar c ++ escAll cs

/-- A rendered string literal: quote, escaped body, quote. -/
def printStrLit (s : List Char) : List Char :=
  '"' :: escAll s ++ ['"']

/-- Decimal digit characters of a natural number, most significant
first. -/
def decimalDigits (n : Nat) : List Char :=
  if h : n < 10 then [Char.ofNat (48 + n)]
  else decimalDigits (n / 10) ++ [Char.ofNat (48 + n % 10)]
termination_by n
decreasing_by exact Nat.div_lt_self (by omega) (by omega)

/-- A rendered integer: optional sign followed by decimal digits. -/
def printInt (n : Int) : List Char :=
  if n < 0 then '-' :: decimalDigits n.natAbs else decimalDigits n.natAbs

/-- The text of the `null` literal. -/
def nullLit : List Char := ['n', 'u', 'l', 'l']

/-- The text of the `true` literal. -/
def trueLit : List Char := ['t', 'r', 'u', 'e']

/-- The text of the `false` literal. -/
def falseLit : List Char := ['f', 'a', 'l', 's', 'e']

mutual
/-- Render a `JsVal` to its JSON text, one character list per value
(matching what `JSON.stringify` produces on the modelled fragment). -/
def printVal : JsVal → List Char
  | .null => nullLit
  | .bool true => trueLit
  | .bool false => falseLit
  | .num n => printInt n
  | .str s => printStrLit s
  | .arr cells => '[' :: printCells cells ++ [']']
  | .obj fields => '\x7b' :: printFields fields ++ ['\x7d']

/-- The comma-separated interior of a rendered array. -/
def printCells : List JsVal → List Char
  | [] => []
  | v :: vs => printVal v ++ printCellsTail vs

/-- The remaining cells of an array interior, each with its leading
comma. -/
def printCellsTail : List JsVal → List Char
  | [] => []
  | v :: vs => ',' :: printVal v ++ printCellsTail vs

/-- The comma-separated interior of a rendered object. -/
def printFields : List (List Char × JsVal) → List Char
  | [] => []
  | kv :: kvs => printStrLit kv.1 ++ ':' :: printVal kv.2 ++ printFieldsTail kvs

/-- The remaining members of an object interior, each with its leading
comma. -/
def printFieldsTail : List (List Char × JsVal) → List Char
  | [] => []
  | kv :: kvs => ',' :: printStrLit kv.1 ++ ':' :: printVal kv.2 ++ printFieldsTail kvs
end

/-! ### The parser (`JSON.parse`) -/

/-- Decimal digit test on characters. -/
def isDigitCh (c : Char) : Bool :=
  48 ≤ c.toNat ∧ c.toNat ≤ 57

/-- Split a leading run of decimal digits off the input. -/
def scanDigits : List Char → List Char × List Char
  | [] => ([], [])
  | c :: cs =>
    if isDigitCh c then
      let p := scanDigits cs
      (c :: p.1, p.2)
    else ([], c :: cs)

/-- Value of a digit string, most significant first. -/
def digitsVal (ds : List Char) : Nat :=
  ds.foldl (fun acc c => 10 * acc + (c.toNat - 48)) 0

/-- Read a nonempty digit run as a natural number; fail on no digits. -/
def readNat (input : List Char) : Option (Nat × List Char) :=
  match scanDigits input with
  | ([], _) => none
  | (ds, rest) => some (digitsVal ds, rest)

/-- Value of a hex digit character, if it is one. -/
def hexNib (c : Char) : Option Nat :=
  if 48 ≤ c.toNat ∧ c.toNat ≤ 57 then some (c.toNat - 48)
  else if 97 ≤ c.toNat ∧ c.toNat ≤ 102 then some (c.toNat - 87)
  else if 65 ≤ c.toNat ∧ c.toNat ≤ 70 then some (c.toNat - 55)
  else none

/-- Match an exact expected character sequence at the head of the input,
returning what follows it. -/
def dropLit : List Char → List Char → Option (List Char)
  | [], input => some input
  | _ :: _, [] => none
  | e :: es, c :: cs => if c = e then dropLit es cs else none

/-- Four hex digit characters as one code point value, if they all are
hex digits. -/
def hexQuad (h1 h2 h3 h4 : Char) : Option Nat :=
  match hexNib h1, hexNib h2, hexNib h3, hexNib h4 with
  | some a, some b, some c, some d => some (((a * 16 + b) * 16 + c) * 16 + d)
  | _, _, _, _ => none

/-- Prepend a decoded character to a string-scan result. -/
def strCons (c : Char) : Option (List Char × List Char) → Option (List Char × List Char)
  | some (s, r) => some (c :: s, r)
  | none => none

/-- Scan a string-literal body after its opening quote, undoing escapes,
up to the closing quote.  Raw control characters are rejected, as
`JSON.parse` rejects them.  The recursion is on a fuel counter (one unit
per decoded character) so the definition stays structural; call sites
pass fuel exceeding any possible decoded length. -/
def scanStrBody : Nat → List Char → Option (List Char × List Char)
  | 0, _ => none
  | _ + 1, [] => none
  | fuel + 1, c :: rest =>
    if c = '"' then some ([], rest)
    else if c = '\\' then
      match rest with
      | [] => none
      | e :: rest2 =>
        if e = '"' then strCons '"' (scanStrBody fuel rest2)
        else if e = '\\' then strCons '\\' (scanStrBody fuel rest2)
        else if e = '/' then strCons '/' (scanStrBody fuel rest2)
        else if e = 'b' then strCons (Char.ofNat 8) (scanStrBody fuel rest2)
        else if e = 't' then strCons (Char.ofNat 9) (scanStrBody fuel rest2)
        else if e = 'n' then strCons (Char.ofNat 10) (scanStrBody fuel rest2)
        else if e = 'f' then strCons (Char.ofNat 12) (scanStrBody fuel rest2)
        else if e = 'r' then strCons (Char.ofNat 13) (scanStrBody fuel rest2)
        else if e = 'u' then
          match rest2 with
          | h1 :: h2 :: h3 :: h4 :: rest3 =>
            match hexQuad h1 h2 h3 h4 with
            | some code => strCons (Char.ofNat code) (scanStrBody fuel rest3)
            | none => none
          | _ => none
        else none
    else if c.toNat < 32 then none
    else strCons c (scanStrBody fuel rest)

/-- Prepend a parsed cell to a parsed array interior. -/
def consCell (v : JsVal) : Option (JsVal × List Char) → Option (JsVal × List Char)
  | some (.arr vs, r) => some (.arr (v :: vs), r)
  | _ => none

/-- Prepend a parsed member to a parsed object interior. -/
def consMember (k : List Char) (v : JsVal) :
    Option (JsVal × List Char) → Option (JsVal × List Char)
  | some (.obj fs, r) => some (.obj ((k, v) :: fs), r)
  | _ => none

mutual
/-- Fuel-indexed recursive-descent parser for one JSON value.  The
entry point `jsonParse` below supplies ample fuel, so running out of
fuel never happens on real input (`parsePrintedVal` proves as much for
printed output).  Dispatch is on the first character; the grammar is
the printed fragment: `null`, `true`, `false`, integers, strings with
escapes, arrays and objects, with no interior whitespace. -/
def parseVal : Nat → List Char → Option (JsVal × List Char)
  | 0, _ => none
  | _ + 1, [] => none
  | fuel + 1, c :: rest =>
    if c = 'n' then
      match dropLit ['u', 'l', 'l'] rest with
      | some r => some (.null, r)
      | none => none
    else if c = 't' then
      match dropLit ['r', 'u', 'e'] rest with
      | some r => some (.bool true, r)
      | none => none
    else if c = 'f' then
      match dropLit ['a', 'l', 's', 'e'] rest with
      | some r => some (.bool false, r)
      | none => none
    else if c = '"' then
      match scanStrBody fuel rest with
      | some (s, r) => some (.str s, r)
      | none => none
    else if c = '[' then parseCells fuel false rest
    else if c = '\x7b' then parseMembers fuel false rest
    else if c = '-' then
      match readNat rest with
      | some (n, r) => some (.num (-(n : Int)), r)
      | none => none
    else if isDigitCh c then
      match readNat (c :: rest) with
      | some (n, r) => some (.num (n : Int), r)
      | none => none
    else none

/-- Parse the interior of an array.  `afterCell` is false right after
the opening bracket (closing bracket or a first cell may follow) and
true right after a cell (closing bracket or a comma may follow). -/
def parseCells : Nat → Bool → List Char → Option (JsVal × List Char)
  | 0, _, _ => none
  | _ + 1, _, [] => none
  | fuel + 1, afterCell, c :: rest =>
    if c = ']' then some (.arr [], rest)
    else if afterCell then
      if c = ',' then
        match parseVal fuel rest with
        | some (v, r) => consCell v (parseCells fuel true r)
        | none => none
      else none
    else
      match parseVal fuel (c :: rest) with
      | some (v, r) => consCell v (parseCells fuel true r)
      | none => none

/-- Parse the interior of an object; `afterCell` as in `parseCells`.
A member is a string key, a colon and a value; the key scan and colon
are handled inline so that every recursive call strictly decreases the
fuel (keeping the recursion structural). -/
def parseMembers : Nat → Bool → List Char → Option (JsVal × List Char)
  | 0, _, _ => none
  | _ + 1, _, [] => none
  | fuel + 1, afterCell, c :: rest =>
    if c = '\x7d' then some (.obj [], rest)
    else if afterCell then
      if c = ',' then
        match rest with
        | c2 :: rest2 =>
          if c2 = '"' then
            match scanStrBody fuel rest2 with
            | some (k, r1) =>
              match r1 with
              | c3 :: r2 =>
                if c3 = ':' then
                  match parseVal fuel r2 with
                  | some (v, r3) => consMember k v (parseMembers fuel true r3)
                  | none => none
                else none
              | [] => none
            | none => none
          else none
        | [] => none
      else none
    else if c = '"' then
      match scanStrBody fuel rest with
      | some (k, r1) =>
        match r1 with
        | c3 :: r2 =>
          if c3 = ':' then
            match parseVal fuel r2 with
            | some (v, r3) => consMember k v (parseMembers fuel true r3)
            | none => none
          else none
        | [] => none
      | none => none
    else none
end

/-- `JSON.parse` on the modelled fragment: parse one value, demand that
it consume the whole input, fail (i.e. throw, at call sites) otherwise.
The fuel exceeds what any input of this length can use. -/
def jsonParse (input : List Char) : Option JsVal :=
  match parseVal (input.length + 1) input with
  | some (v, []) => some v
  | _ => none

/-! ### Round-trip groundwork: digits and numbers -/

/-- The digit codec on single characters: code `48 + d` is its own
`toNat` and is a digit, for `d < 10`. -/
theorem digitCharFacts : ∀ d : Nat, d < 10 →
    (Char.ofNat (48 + d)).toNat = 48 + d ∧ isDigitCh (Char.ofNat (48 + d)) = true := by
  decide

/-- Unfold `decimalDigits` into last-digit form. -/
theorem decimalDigits_unfold (n : Nat) :
    decimalDigits n =
      (if n < 10 then [] else decimalDigits (n / 10)) ++ [Char.ofNat (48 + n % 10)] := by
  rw [decimalDigits]
  by_cases h : n < 10
  · simp [h, Nat.mod_eq_of_lt h]
  · simp [h]

theorem decimalDigits_ne_nil (n : Nat) : decimalDigits n ≠ [] := by
  rw [decimalDigits_unfold]; simp

theorem decimalDigits_digits (n : Nat) : ∀ c ∈ decimalDigits n, isDigitCh c = true := by
  induction n using Nat.strongRecOn with
  | ind n ih =>
    rw [decimalDigits_unfold]
    intro c hc
    rcases List.mem_append.mp hc with hl | hr
    · by_cases h : n < 10
      · simp [h] at hl
      · exact ih (n / 10) (Nat.div_lt_self (by omega) (by omega)) c (by simpa [h] using hl)
    · rw [List.mem_singleton] at hr
      subst hr
      exact (digitCharFacts (n % 10) (Nat.mod_lt _ (by omega))).2

theorem digitsVal_decimalDigits (n : Nat) : digitsVal (decimalDigits n) = n := by
  induction n using Nat.strongRecOn with
  | ind n ih =>
    rw [decimalDigits_unfold]
    unfold digitsVal
    rw [List.foldl_append]
    by_cases h : n < 10
    · simp only [if_pos h, List.foldl_nil, List.foldl_cons]
      rw [(digitCharFacts (n % 10) (Nat.mod_lt _ (by omega))).1]
      omega
    · simp only [if_neg h, List.foldl_cons, List.foldl_nil]
      have := ih (n / 10) (Nat.div_lt_self (by omega) (by omega))
      unfold digitsVal at this
      rw [this]
      rw [(digitCharFacts (n % 10) (Nat.mod_lt _ (by omega))).1]
      omega

/-- The input after a printed number must not begin with another digit,
or the parse would swallow it; every delimiter that can follow a value
in printed output satisfies this. -/
def noDigitHead : List Char → Bool
  | [] => true
  | c :: _ => !isDigitCh c

theorem scanDigits_stop {input : List Char} (h : noDigitHead input = true) :
    scanDigits input = ([], input) := by
  cases input with
  | nil => rfl
  | cons c t =>
    simp only [noDigitHead, Bool.not_eq_true'] at h
    simp [scanDigits, h]

/-- `scanDigits` consumes exactly a leading digit run. -/
theorem scanDigits_run {ds : List Char} (hds : ∀ c ∈ ds, isDigitCh c = true)
    {rest : List Char} (hrest : noDigitHead rest = true) :
    scanDigits (ds ++ rest) = (ds, rest) := by
  induction ds with
  | nil => simpa using scanDigits_stop hrest
  | cons c t ih =>
    have hc : isDigitCh c = true := hds c (by simp)
    have ht := ih (fun x hx => hds x (by simp [hx]))
    simp [scanDigits, hc, ht]

theorem readNat_printed (n : Nat) {rest : List Char} (h : noDigitHead rest = true) :
    readNat (decimalDigits n ++ rest) = some (n, rest) := by
  unfold readNat
  rw [scanDigits_run (decimalDigits_digits n) h]
  rcases hsplit : decimalDigits n with _ | ⟨c, t⟩
  · exact absurd hsplit (decimalDigits_ne_nil n)
  · show some (digitsVal (c :: t), rest) = some (n, rest)
    rw [← hsplit, digitsVal_decimalDigits]

/-! ### Round-trip groundwork: strings -/

/-- `hexNib` inverts `nibbleChar` on nibbles. -/
theorem hexNibbleFacts : ∀ d : Nat, d < 16 → hexNib (nibbleChar d) = some d := by
  decide

/-- The hex quad a control-character escape carries decodes to the
character's code. -/
theorem hexQuad_control (t : Nat) (h : t < 32) :
    hexQuad '0' '0' (nibbleChar (t / 16)) (nibbleChar (t % 16)) = some t := by
  unfold hexQuad
  rw [hexNibbleFacts (t / 16) (by omega), hexNibbleFacts (t % 16) (by omega)]
  show some (((0 * 16 + 0) * 16 + t / 16) * 16 + t % 16) = some t
  congr 1
  omega

/-- Scanning one escaped character undoes its escape and goes on. -/
theorem scanStrBody_escChar (fuel : Nat) (c : Char) (t : List Char) :
    scanStrBody (fuel + 1) (escChar c ++ t) = strCons c (scanStrBody fuel t) := by
  unfold escChar
  split_ifs with h1 h2 h3 h4 h5 h6 h7 h8
  · subst h1; simp [scanStrBody]
  · subst h2; simp [scanStrBody]
  · have hc : Char.ofNat 8 = c := by rw [← h3]; exact Char.ofNat_toNat c
    simp [scanStrBody]
    rw [hc]
  · have hc : Char.ofNat 9 = c := by rw [← h4]; exact Char.ofNat_toNat c
    simp [scanStrBody]
    rw [hc]
  · have hc : Char.ofNat 10 = c := by rw [← h5]; exact Char.ofNat_toNat c
    simp [scanStrBody]
    rw [hc]
  · have hc : Char.ofNat 12 = c := by rw [← h6]; exact Char.ofNat_toNat c
    simp [scanStrBody]
    rw [hc]
  · have hc : Char.ofNat 13 = c := by rw [← h7]; exact Char.ofNat_toNat c
    simp [scanStrBody]
    rw [hc]
  · simp [scanStrBody, hexQuad_control c.toNat h8, Char.ofNat_toNat]
  · simp [scanStrBody, h1, h2, h8]

/-- Scanning an escaped body recovers it and stops at the closing
quote, given one fuel unit per decoded character. -/
theorem scanStrBody_escAll (s : List Char) : ∀ (fuel : Nat) (rest : List Char),
    s.length < fuel →
    scanStrBody fuel (escAll s ++ '"' :: rest) = some (s, rest) := by
  induction s with
  | nil =>
    intro fuel rest h
    cases fuel with
    | zero => omega
    | succ f => simp [escAll, scanStrBody]
  | cons c cs ih =>
    intro fuel rest h
    cases fuel with
    | zero => omega
    | succ f =>
      show scanStrBody (f + 1) (escChar c ++ escAll cs ++ '"' :: rest) = _
      rw [List.append_assoc, scanStrBody_escChar,
        ih f rest (by simp at h; omega)]
      rfl

/-- Escaping can only lengthen a string. -/
theorem escAll_length (s : List Char) : s.length ≤ (escAll s).length := by
  induction s with
  | nil => simp [escAll]
  | cons c cs ih =>
    have h1 : 1 ≤ (escChar c).length := by
      unfold escChar
      split_ifs <;> simp
    simp only [escAll, List.length_append, List.length_cons]
    omega

/-! ### Round-trip groundwork: heads and delimiters -/

/-- A digit run is nonempty and begins with a digit. -/
theorem decimalDigits_head (m : Nat) :
    ∃ c t, decimalDigits m = c :: t ∧ isDigitCh c = true := by
  rcases hsplit : decimalDigits m with _ | ⟨c, t⟩
  · exact absurd hsplit (decimalDigits_ne_nil m)
  · exact ⟨c, t, rfl, decimalDigits_digits m c (hsplit ▸ List.mem_cons_self c t)⟩

/-- A digit head rules out every other dispatch branch of `parseVal`. -/
theorem digitHeadFacts {c : Char} (h : isDigitCh c = true) :
    ¬c = 'n' ∧ ¬c = 't' ∧ ¬c = 'f' ∧ ¬c = '"' ∧ ¬c = '['
      ∧ ¬c = '\x7b' ∧ ¬c = '-' ∧ ¬c = ']' := by
  refine ⟨?_, ?_, ?_, ?_, ?_, ?_, ?_, ?_⟩ <;> (intro hc; subst hc; exact absurd h (by decide))

/-- Every printed value begins with some character that is not a
closing bracket: the one `parseCells` would dispatch on. -/
theorem printedHead (v : JsVal) : ∃ c t, printVal v = c :: t ∧ ¬c = ']' := by
  cases v with
  | null => exact ⟨'n', _, rfl, by decide⟩
  | bool b => cases b with
    | true => exact ⟨'t', _, rfl, by decide⟩
    | false => exact ⟨'f', _, rfl, by decide⟩
  | str s => exact ⟨'"', _, rfl, by decide⟩
  | arr cells => exact ⟨'[', _, rfl, by decide⟩
  | obj fields => exact ⟨'\x7b', _, rfl, by decide⟩
  | num n =>
    by_cases hm : n < 0
    · exact ⟨'-', decimalDigits n.natAbs, by simp [printVal, printInt, hm], by decide⟩
    · obtain ⟨c0, t0, h0, hd⟩ := decimalDigits_head n.natAbs
      exact ⟨c0, t0, by simp [printVal, printInt, hm, h0], (digitHeadFacts hd).2.2.2.2.2.2.2⟩

theorem noDigitHead_cellsTail (vs : List JsVal) (x : List Char) :
    noDigitHead (printCellsTail vs ++ ']' :: x) = true := by
  cases vs with
  | nil => rfl
  | cons v vs =>
    show noDigitHead (',' :: (printVal v ++ printCellsTail vs ++ ']' :: x)) = true
    rfl

theorem noDigitHead_fieldsTail (kvs : List (List Char × JsVal)) (x : List Char) :
    noDigitHead (printFieldsTail kvs ++ '\x7d' :: x) = true := by
  cases kvs with
  | nil => rfl
  | cons kv kvs =>
    show noDigitHead
      (',' :: (printStrLit kv.1 ++ ':' :: printVal kv.2 ++ printFieldsTail kvs ++ '\x7d' :: x))
      = true
    rfl

/-! ### The printer-parser round trip -/

mutual
theorem rt_val : ∀ (v : JsVal) (fuel : Nat) (rest : List Char),
    (printVal v).length < fuel → noDigitHead rest = true →
    parseVal fuel (printVal v ++ rest) = some (v, rest)
  | .null, fuel, rest, hf, _ => by
    cases fuel with
    | zero => simp [printVal, nullLit] at hf
    | succ f => simp [printVal, nullLit, parseVal, dropLit]
  | .bool b, fuel, rest, hf, _ => by
    cases fuel with
    | zero => cases b <;> simp [printVal, trueLit, falseLit] at hf
    | succ f => cases b <;> simp [printVal, trueLit, falseLit, parseVal, dropLit]
  | .num n, fuel, rest, hf, hr => by
    cases fuel with
    | zero => omega
    | succ f =>
      by_cases hm : n < 0
      · have harg : printVal (.num n) ++ rest = '-' :: (decimalDigits n.natAbs ++ rest) := by
          simp [printVal, printInt, hm]
        rw [harg]
        have hread := readNat_printed n.natAbs hr
        simp [parseVal, hread]
        simp [abs_of_neg hm]
      · obtain ⟨c0, t0, h0, hd⟩ := decimalDigits_head n.natAbs
        obtain ⟨hn, ht, hf2, hq, hbk, hbc, hminus, _⟩ := digitHeadFacts hd
        have harg : printVal (.num n) ++ rest = c0 :: (t0 ++ rest) := by
          simp [printVal, printInt, hm, h0]
        have hread : readNat (c0 :: (t0 ++ rest)) = some (n.natAbs, rest) := by
          have h2 := readNat_printed n.natAbs hr
          rwa [h0, List.cons_append] at h2
        rw [harg]
        simp [parseVal, hn, ht, hf2, hq, hbk, hbc, hminus, hd, hread]
        omega
  | .str s, fuel, rest, hf, _ => by
    cases fuel with
    | zero => omega
    | succ f =>
      have harg : printVal (.str s) ++ rest = '"' :: (escAll s ++ '"' :: rest) := by
        simp [printVal, printStrLit]
      have hlen : s.length < f := by
        have h1 := escAll_length s
        simp [printVal, printStrLit] at hf
        omega
      rw [harg]
      simp [parseVal, scanStrBody_escAll s f rest hlen]
  | .arr cells, fuel, rest, hf, _ => by
    cases fuel with
    | zero => omega
    | succ f =>
      have harg : printVal (.arr cells) ++ rest = '[' :: (printCells cells ++ ']' :: rest) := by
        simp [printVal]
      have hlen : (printCells cells).length + 1 < f := by
        simp [printVal] at hf
        omega
      rw [harg]
      simp [parseVal, rt_cells cells f rest hlen]
  | .obj fields, fuel, rest, hf, _ => by
    cases fuel with
    | zero => omega
    | succ f =>
      have harg : printVal (.obj fields) ++ rest
          = '\x7b' :: (printFields fields ++ '\x7d' :: rest) := by
        simp [printVal]
      have hlen : (printFields fields).length + 1 < f := by
        simp [printVal] at hf
        omega
      rw [harg]
      simp [parseVal, rt_members fields f rest hlen]
termination_by v _ _ _ _ => sizeOf v

theorem rt_cells : ∀ (vs : List JsVal) (g : Nat) (rest : List Char),
    (printCells vs).length + 1 < g →
    parseCells g false (printCells vs ++ ']' :: rest) = some (.arr vs, rest)
  | [], g, rest, hg => by
    cases g with
    | zero => omega
    | succ g2 => simp [printCells, parseCells]
  | v :: vs, g, rest, hg => by
    cases g with
    | zero => omega
    | succ g2 =>
      obtain ⟨c0, t0, h0, hne⟩ := printedHead v
      have harg : printCells (v :: vs) ++ ']' :: rest
          = c0 :: (t0 ++ (printCellsTail vs ++ ']' :: rest)) := by
        simp [printCells, h0]
      have hlv : (printVal v).length < g2 := by
        simp [printCells] at hg
        omega
      have hlt : (printCellsTail vs).length + 1 < g2 := by
        have h1 : 1 ≤ (printVal v).length := by rw [h0]; simp
        simp [printCells] at hg
        omega
      have hv : parseVal g2 (c0 :: (t0 ++ (printCellsTail vs ++ ']' :: rest)))
          = some (v, printCellsTail vs ++ ']' :: rest) := by
        have h2 := rt_val v g2 (printCellsTail vs ++ ']' :: rest) hlv
          (noDigitHead_cellsTail vs rest)
        rwa [h0, List.cons_append] at h2
      have htail := rt_cellsTail vs g2 rest hlt
      rw [harg]
      simp [parseCells, hne, hv, htail, consCell]
termination_by vs _ _ _ => sizeOf vs

theorem rt_cellsTail : ∀ (vs : List JsVal) (g : Nat) (rest : List Char),
    (printCellsTail vs).length + 1 < g →
    parseCells g true (printCellsTail vs ++ ']' :: rest) = some (.arr vs, rest)
  | [], g, rest, hg => by
    cases g with
    | zero => omega
    | succ g2 => simp [printCellsTail, parseCells]
  | v :: vs, g, rest, hg => by
    cases g with
    | zero => omega
    | succ g2 =>
      have harg : printCellsTail (v :: vs) ++ ']' :: rest
          = ',' :: (printVal v ++ (printCellsTail vs ++ ']' :: rest)) := by
        simp [printCellsTail]
      have hlv : (printVal v).length < g2 := by
        simp [printCellsTail] at hg
        omega
      have hlt : (printCellsTail vs).length + 1 < g2 := by
        simp [printCellsTail] at hg
        omega
      have hv := rt_val v g2 (printCellsTail vs ++ ']' :: rest) hlv
        (noDigitHead_cellsTail vs rest)
      have htail := rt_cellsTail vs g2 rest hlt
      rw [harg]
      simp [parseCells, hv, htail, consCell]
termination_by vs _ _ _ => sizeOf vs

theorem rt_members : ∀ (kvs : List (List Char × JsVal)) (g : Nat) (rest : List Char),
    (printFields kvs).length + 1 < g →
    parseMembers g false (printFields kvs ++ '\x7d' :: rest) = some (.obj kvs, rest)
  | [], g, rest, hg => by
    cases g with
    | zero => omega
    | succ g2 => simp [printFields, parseMembers]
  | (k, v) :: kvs, g, rest, hg => by
    cases g with
    | zero => omega
    | succ g2 =>
      have harg : printFields ((k, v) :: kvs) ++ '\x7d' :: rest
          = '"' :: (escAll k
              ++ '"' :: (':' :: (printVal v ++ (printFieldsTail kvs ++ '\x7d' :: rest)))) := by
        simp [printFields, printStrLit]
      have hek := escAll_length k
      have hk : k.length < g2 := by
        simp [printFields, printStrLit] at hg
        omega
      have hlv : (printVal v).length < g2 := by
        simp [printFields, printStrLit] at hg
        omega
      have hlt : (printFieldsTail kvs).length + 1 < g2 := by
        simp [printFields, printStrLit] at hg
        omega
      have hscan := scanStrBody_escAll k g2
        (':' :: (printVal v ++ (printFieldsTail kvs ++ '\x7d' :: rest))) hk
      have hv := rt_val v g2 (printFieldsTail kvs ++ '\x7d' :: rest) hlv
        (noDigitHead_fieldsTail kvs rest)
      have htail := rt_membersTail kvs g2 rest hlt
      rw [harg]
      simp [parseMembers, hscan, hv, htail, consMember]
termination_by kvs _ _ _ => sizeOf kvs

theorem rt_membersTail : ∀ (kvs : List (List Char × JsVal)) (g : Nat) (rest : List Char),
    (printFieldsTail kvs).length + 1 < g →
    parseMembers g true (printFieldsTail kvs ++ '\x7d' :: rest) = some (.obj kvs, rest)
  | [], g, rest, hg => by
    cases g with
    | zero => omega
    | succ g2 => simp [printFieldsTail, parseMembers]
  | (k, v) :: kvs, g, rest, hg => by
    cases g with
    | zero => omega
    | succ g2 =>
      have harg : printFieldsTail ((k, v) :: kvs) ++ '\x7d' :: rest
          = ',' :: ('"' :: (escAll k
              ++ '"' :: (':' :: (printVal v ++ (printFieldsTail kvs ++ '\x7d' :: rest))))) := by
        simp [printFieldsTail, printStrLit]
      have hek := escAll_length k
      have hk : k.length < g2 := by
        simp [printFieldsTail, printStrLit] at hg
        omega
      have hlv : (printVal v).length < g2 := by
        simp [printFieldsTail, printStrLit] at hg
        omega
      have hlt : (printFieldsTail kvs).length + 1 < g2 := by
        simp [printFieldsTail, printStrLit] at hg
        omega
      have hscan := scanStrBody_escAll k g2
        (':' :: (printVal v ++ (printFieldsTail kvs ++ '\x7d' :: rest))) hk
      have hv := rt_val v g2 (printFieldsTail kvs ++ '\x7d' :: rest) hlv
        (noDigitHead_fieldsTail kvs rest)
      have htail := rt_membersTail kvs g2 rest hlt
      rw [harg]
      simp [parseMembers, hscan, hv, htail, consMember]
termination_by kvs _ _ _ => sizeOf kvs
end

/-- The whole round trip: the modelled `JSON.parse` recovers every
value from the text the modelled `JSON.stringify` produces. -/
theorem parsePrintedVal (v : JsVal) : jsonParse (printVal v) = some v := by
  unfold jsonParse
  have h := rt_val v ((printVal v).length + 1) [] (by omega) rfl
  rw [List.append_nil] at h
  rw [h]

/-! ### `utils.ts`: buffer helpers -/

/-- A JS `Nilable<T>`: `null`, `undefined` or a value. -/
inductive Nilable (α : Type) where
  | jsNull
  | undef
  | val (a : α)

/-- `isNil` from `utils.ts`: true exactly on `null` and `undefined`. -/
def isNil {α : Type} : Nilable α → Bool
  | .jsNull => true
  | .undef => true
  | .val _ => false

/-- A Node `Buffer`: its byte content, under the `List Char` byte
model (see the header notes). -/
abbrev WsBuffer := List Char

/-- The index loop of `areBuffersEqual` (utils, lines 65-69): compare
entries pairwise, false at the first mismatch; it runs only under the
equal-length guard, where the catch-all is the both-empty exit. -/
def byteLoop : WsBuffer → WsBuffer → Bool
  | x :: xs, y :: ys => if x ≠ y then false else byteLoop xs ys
  | _, _ => true

/-- `areBuffersEqual` from `utils.ts`.  In JS, `x === y` is true when
both are `null`, both are `undefined`, or both are the same object; in
the same-object case the length guard and loop would also return true,
so the value-level model folds the reference shortcut into the
`val`/`val` case.  With exactly one side nil, neither `x === y` nor
`x && y` holds and the function returns false. -/
def areBuffersEqual : Nilable WsBuffer → Nilable WsBuffer → Bool
  | .jsNull, .jsNull => true
  | .undef, .undef => true
  | .val x, .val y =>
    if x.length ≠ y.length then false
    else byteLoop x y
  | _, _ => false

/-- Data a `ws` socket can hand a `message` listener: a `Buffer`, a
string, or one of the shapes (`ArrayBuffer`, `Buffer[]`) that
`isValidSocketData` rejects. -/
inductive WsData where
  | buf (b : WsBuffer)
  | str (s : List Char)
  | other

/-- `isValidSocketData` from `utils.ts`: buffers and strings only. -/
def isValidSocketData : WsData → Bool
  | .buf _ => true
  | .str _ => true
  | .other => false

/-- `asBuffer` from `utils.ts` on valid socket data: a buffer is
returned as is, a string is UTF-8 encoded (the identity under the
`List Char` byte model).  Every modelled call site guards with
`isValidSocketData` first, so the `other` case is never reached. -/
def asBuffer : WsData → WsBuffer
  | .buf b => b
  | .str s => s
  | .other => []

/-! ### The envelope codec (`SimpleWebSocket.send`, server decode) -/

/-- The `type` property name. -/
def typeKey : List Char := ['t', 'y', 'p', 'e']

/-- The `data` property name. -/
def dataKey : List Char := ['d', 'a', 't', 'a']

/-- The `ref` property name. -/
def refKey : List Char := ['r', 'e', 'f']

/-- The JSON object `SimpleWebSocket.send` builds:
`{ type: String(type), data, ref }`, in that key order, with
`undefined` `data`/`ref` omitted by `JSON.stringify`. -/
def envelopeJson (t : List Char) (d r : Option JsVal) : JsVal :=
  .obj ([(typeKey, .str t)]
    ++ (match d with | some x => [(dataKey, x)] | none => [])
    ++ (match r with | some x => [(refKey, x)] | none => []))

/-- The wire text of one sent envelope:
`JSON.stringify({type: String(type), data, ref})`; for `t` already a
string, `String(t)` is `t` itself. -/
def encodeEnvelope (t : List Char) (d r : Option JsVal) : List Char :=
  printVal (envelopeJson t d r)

/-- Whether a parse result has a string `type` property — what the
guard `'string' !== typeof MSG.type` tests (server lines 161-164). -/
def hasStrType (m : JsVal) : Bool :=
  match getField m typeKey with
  | some (.str _) => true
  | _ => false

/-- The server's frame-decoding pipeline (server lines 155-164):
`JSON.parse` the frame text (a parse throw is caught and closes), close
on a falsy result, close unless `type` is a string; the envelope read
out is the triple of the `type`, `data` and `ref` properties. -/
def decodeEnvelope (input : List Char) :
    Option (List Char × Option JsVal × Option JsVal) :=
  match jsonParse input with
  | none => none
  | some m =>
    if jsFalsy m then none
    else
      match getField m typeKey with
      | some (.str t) => some (t, getField m dataKey, getField m refKey)
      | _ => none

/-- Reading the three envelope properties back out of the object that
`SimpleWebSocket.send` serialises. -/
theorem envelopeJson_fields (t : List Char) (d r : Option JsVal) :
    getField (envelopeJson t d r) typeKey = some (.str t)
      ∧ getField (envelopeJson t d r) dataKey = d
      ∧ getField (envelopeJson t d r) refKey = r := by
  cases d <;> cases r <;>
    simp [envelopeJson, getField, getField.lookupLastKey, typeKey, dataKey, refKey]

/-! ### The server key (`SimpleWebSocketServer.key`, lines 252-259) -/

/-- A configured `WebSocketServerKey`: a JS string or a `Buffer`. -/
inductive KeyVal where
  | str (s : List Char)
  | buf (b : WsBuffer)

/-- JS truthiness of `this.options.key`: an absent, `null` or
`undefined` key and the empty string are falsy; a `Buffer` object,
even an empty one, is truthy. -/
def keyTruthy : Option KeyVal → Bool
  | none => false
  | some (.str s) => !s.isEmpty
  | some (.buf _) => true

/-- The `key` getter: a truthy configured key as a buffer (a string
key is UTF-8 encoded — the identity in the byte model), `null`
otherwise. -/
def serverKey (k : Option KeyVal) : Option WsBuffer :=
  if keyTruthy k then
    match k with
    | some (.buf b) => some b
    | some (.str s) => some s
    | none => none
  else none

/-! ### Handlers, actions, connection state -/

/-- A thrown or rejected JS value as the reply path distinguishes
them: an `Error` instance — from which `SimpleWebSocket.error` reads
`name` and `stack` — or any other value, carried here by what
`String(...)` renders it as. -/
inductive JsError where
  | errObj (name stack : List Char)
  | prim (s : List Char)

/-- The `name` property name. -/
def nameKey : List Char := ['n', 'a', 'm', 'e']

/-- The `message` property name. -/
def messageKey : List Char := ['m', 'e', 's', 's', 'a', 'g', 'e']

/-- The `stack` property name. -/
def stackKey : List Char := ['s', 't', 'a', 'c', 'k']

/-- The payload `SimpleWebSocket.error` sends (part_002 lines
149-162): for an `Error`, `{name, message, stack}` — the source
assigns the *stack* to `message` as well — otherwise `String(err)`. -/
def errorData : JsError → JsVal
  | .errObj name stack =>
    .obj [(nameKey, .str name), (messageKey, .str stack), (stackKey, .str stack)]
  | .prim s => .str s

/-- One registered `onMessage` item, together with the oracle inputs
its invocation consumes.  `filter` may return a boolean or throw;
`run` models `Promise.resolve(H.handler(CTX))` with its `.then` and
`.catch`: the handler may throw synchronously (outer `Except.error`),
settle rejected (inner `Except.error`), or settle fulfilled with an
optional result (`none` when the handler returned `undefined`).
`replySendOk` is the transport outcome of the one reply write the
invocation triggers. -/
structure HandlerItem where
  filter : JsVal → Except JsError Bool
  run : JsVal → Except JsError (Except JsError (Option JsVal))
  replySendOk : Bool

/-- One envelope as handed to `SimpleWebSocket.send`: the triple
`(type, data, ref)`. -/
structure OutMsg where
  type : List Char
  data : Option JsVal
  ref : Option JsVal

/-- The reserved `ok` envelope type. -/
def okType : List Char := ['o', 'k']

/-- The reserved `error` envelope type. -/
def errorType : List Char := ['e', 'r', 'r', 'o', 'r']

/-- The `auth_failed` notice type the server may send before closing
on a key mismatch. -/
def authFailedType : List Char :=
  ['a', 'u', 't', 'h', '_', 'f', 'a', 'i', 'l', 'e', 'd']

/-- Observable actions of one listener invocation, linearised: a
transport send attempt with its oracle outcome, the server-level
`connection` and `close` events, and the connection-level `message`
event. -/
inductive Act where
  | send (m : OutMsg) (ok : Bool)
  | emitConnection
  | emitMessage (m : JsVal)
  | emitClose

/-- Protocol state of one accepted connection: whether `simpleClient`
has been assigned (the connection is Authenticated), whether it is in
the server's `_clients` registry, and whether its socket has been
closed (the `close` event has fired). -/
structure ConnState where
  authed : Bool
  inList : Bool
  closed : Bool

/-- A state with an action trace. -/
structure StRes where
  st : ConnState
  acts : List Act

/-- `CLOSE()` (server lines 130-136) plus the `socket.once('close')`
listener (lines 138-145): drop the connection from `_clients` and
close the socket; closing a not-yet-closed socket fires the close
listener — `once` keeps it single-shot — which removes again
(idempotent) and emits the server-level `close` event. -/
def closeConn (st : ConnState) : ConnState × List Act :=
  let st1 : ConnState := { st with inList := false }
  if st1.closed then (st1, [])
  else ({ st1 with closed := true }, [Act.emitClose])

/-- The reply envelope for a handler's settled outcome:
`ok(result, MSG.ref)` on fulfilment, `error(err, MSG.ref)` on
rejection; either way the reply carries the inbound envelope's `ref`. -/
def replyMsg (m : JsVal) : Except JsError (Option JsVal) → OutMsg
  | .ok r => ⟨okType, r, getField m refKey⟩
  | .error e => ⟨errorType, some (errorData e), getField m refKey⟩

/-- Record a reply send and close the connection when the write
failed — the `catch \x7b CLOSE() \x7d` and `.catch(() => CLOSE())`
around every reply send. -/
def sendAndMaybeClose (msg : OutMsg) (ok : Bool) (r : StRes) : StRes :=
  let r1 : StRes := ⟨r.st, r.acts ++ [Act.send msg ok]⟩
  if ok then r1
  else
    let c := closeConn r1.st
    ⟨c.1, r1.acts ++ c.2⟩

/-- One iteration of the server's dispatch loop (lines 167-200): skip
when the filter rejects; a synchronous throw from the filter or the
handler sends one error reply and aborts the loop (the `return` inside
the `catch`); a settled outcome sends its ok/error reply
asynchronously.  A failing reply write closes the connection.  The
second component is the abort flag. -/
def runHandler (m : JsVal) (h : HandlerItem) (r : StRes) : StRes × Bool :=
  match h.filter m with
  | .error e => (sendAndMaybeClose (replyMsg m (.error e)) h.replySendOk r, true)
  | .ok false => (r, false)
  | .ok true =>
    match h.run m with
    | .error e => (sendAndMaybeClose (replyMsg m (.error e)) h.replySendOk r, true)
    | .ok out => (sendAndMaybeClose (replyMsg m out) h.replySendOk r, false)

/-- The dispatch loop over the registered items, in insertion order,
stopping only at an abort. -/
def runHandlers (m : JsVal) : List HandlerItem → StRes → StRes × Bool
  | [], r => (r, false)
  | h :: hs, r =>
    match runHandler m h r with
    | (r1, true) => (r1, true)
    | (r1, false) => runHandlers m hs r1

/-! ### The server's `message` listener (`SimpleWebSocketServer.init`) -/

/-- The server-side environment of one connection: the configured
`options.key`, the registered `onMessage` items, and the transport
outcomes of the two sends the authentication path can perform. -/
structure ServerEnv where
  key : Option KeyVal
  handlers : List HandlerItem
  okSendOk : Bool
  authFailedSendOk : Bool

/-- Result of one listener invocation: the state when the synchronous
listener body returns, the state once every promise callback has
settled (no other frame interleaved), and the linearised action
trace. -/
structure StepOut where
  sync : ConnState
  final : ConnState
  acts : List Act

/-- The authenticated branch of the server's `message` listener
(lines 149-206): validate the socket data, parse, reject falsy parses
and non-string `type`s — each failure closes synchronously and sends
nothing — then run the dispatch loop and, unless a synchronous throw
aborted it, publish the raw envelope to the connection-level `message`
observers. -/
def authedFrame (env : ServerEnv) (st : ConnState) (data : WsData) : StepOut :=
  if isValidSocketData data = false then
    let c := closeConn st
    ⟨c.1, c.1, c.2⟩
  else
    match jsonParse (asBuffer data) with
    | none =>
      let c := closeConn st
      ⟨c.1, c.1, c.2⟩
    | some m =>
      if jsFalsy m then
        let c := closeConn st
        ⟨c.1, c.1, c.2⟩
      else if hasStrType m = false then
        let c := closeConn st
        ⟨c.1, c.1, c.2⟩
      else
        match runHandlers m env.handlers ⟨st, []⟩ with
        | (r, true) => ⟨st, r.st, r.acts⟩
        | (r, false) => ⟨st, r.st, r.acts ++ [Act.emitMessage m]⟩

/-- Authentication success (lines 232-240): assign `simpleClient`,
push it onto `_clients`, then send the bare `ok` envelope; the
`connection` event is emitted only when that send resolves, and a
rejected send closes the connection (dropping it from the list)
instead. -/
def acceptConn (env : ServerEnv) (st : ConnState) : StepOut :=
  let st1 : ConnState := { st with authed := true, inList := true }
  if env.okSendOk then
    ⟨st1, st1, [Act.send ⟨okType, none, none⟩ true, Act.emitConnection]⟩
  else
    let c := closeConn st1
    ⟨st1, c.1, Act.send ⟨okType, none, none⟩ false :: c.2⟩

/-- The unauthenticated branch (lines 207-241): invalid socket data
closes synchronously; with a configured key, a first frame whose bytes
differ from the key triggers a best-effort `auth_failed` notice whose
outcome is ignored and then — in the `finally` — the close; otherwise
the connection is accepted. -/
def unauthFrame (env : ServerEnv) (st : ConnState) (data : WsData) : StepOut :=
  if isValidSocketData data = false then
    let c := closeConn st
    ⟨c.1, c.1, c.2⟩
  else
    match serverKey env.key with
    | some kb =>
      if areBuffersEqual (.val (asBuffer data)) (.val kb) = false then
        let c := closeConn st
        ⟨st, c.1, Act.send ⟨authFailedType, none, none⟩ env.authFailedSendOk :: c.2⟩
      else acceptConn env st
    | none => acceptConn env st

/-- The server's whole `message` listener (lines 147-245), for one
frame on one connection: dispatch on whether `simpleClient` is already
assigned. -/
def serverOnMessage (env : ServerEnv) (st : ConnState) (data : WsData) : StepOut :=
  if st.authed then authedFrame env st data else unauthFrame env st data

/-- The malformed-frame class (spec §7): not valid socket data, or
frame text that fails to parse, parses to a falsy value, or lacks a
string `type`. -/
def malformedFrame (data : WsData) : Bool :=
  if isValidSocketData data = false then true
  else
    match jsonParse (asBuffer data) with
    | none => true
    | some m => jsFalsy m || !hasStrType m

/-- The send actions of a trace. -/
def sendActs (acts : List Act) : List Act :=
  acts.filter fun a =>
    match a with
    | .send _ _ => true
    | _ => false

/-- The replies the matching handlers of a dispatch produce: one per
item whose filter accepts the envelope and whose invocation settles,
in registration order. -/
def matchedReplies (handlers : List HandlerItem) (m : JsVal) : List Act :=
  handlers.filterMap fun h =>
    match h.filter m with
    | .ok true =>
      match h.run m with
      | .ok out => some (.send (replyMsg m out) h.replySendOk)
      | .error _ => none
    | _ => none

/-! ### Broadcast (`SimpleWebSocketServer.send`, lines 300-306) -/

/-- One registered client as the broadcast sees it: what its
`SimpleWebSocket.send` settles to on a given envelope — fulfilment, or
rejection with the write error. -/
structure BClient where
  sendOutcome : OutMsg → Except JsError Unit

/-- `Promise.all` over already-started sends: fulfilled when all are,
rejected with the first rejection otherwise (list order standing in
for settlement time). -/
def promiseAll : List (Except JsError Unit) → Except JsError Unit
  | [] => .ok ()
  | .ok () :: rest => promiseAll rest
  | .error e :: _ => .error e

/-- `SimpleWebSocketServer.send`: map `c.send(type, data, ref)` over
the registered clients — initiating every send — and await
`Promise.all` of the results.  The first component is each client's
settled outcome, the second what the broadcast promise itself does. -/
def serverBroadcast (clients : List BClient) (t : List Char) (d r : Option JsVal) :
    List (Except JsError Unit) × Except JsError Unit :=
  let results := clients.map fun c => c.sendOutcome ⟨t, d, r⟩
  (results, promiseAll results)

/-! ### The two send implementations (`SimpleWebSocket.send`,
`SimpleWebSocketClient.send`) -/

/-- A settled JS promise as its caller observes it. -/
inductive PromiseOut where
  | resolved
  | rejected (reason : Option JsError)

/-- `SimpleWebSocket.send`'s write callback (part_002 lines 312-318):
`reject(err)` when the transport reports an error, `resolve()` when it
does not. -/
def simpleWebSocketSendPromise (writeErr : Option JsError) : PromiseOut :=
  match writeErr with
  | some e => .rejected (some e)
  | none => .resolved

/-- `SimpleWebSocketClient.send`'s write callback
(SimpleWebSocketClient.ts lines 118-124), exactly as the source has
it: `resolve()` when the transport reports an error, and `reject(err)`
— with `err` then being `undefined` — when the write succeeded. -/
def simpleWebSocketClientSendPromise (writeErr : Option JsError) : PromiseOut :=
  match writeErr with
  | some _ => .resolved
  | none => .rejected none

/-! ### Claim C8: byte equality -/

/-- Under equal lengths, the comparison loop decides equality. -/
theorem byteLoop_iff : ∀ {x y : WsBuffer}, x.length = y.length →
    (byteLoop x y = true ↔ x = y)
  | [], [], _ => by simp [byteLoop]
  | [], _ :: _, h => by simp at h
  | _ :: _, [], h => by simp at h
  | a :: as, b :: bs, h => by
    by_cases hab : a = b
    · subst hab
      have ih := byteLoop_iff (x := as) (y := bs) (by simpa using h)
      simp [byteLoop, ih]
    · simp [byteLoop, hab]

/-- C8: for all byte sequences `x` and `y`, `areBuffersEqual x y` is
true iff `x` and `y` have identical length and content (i.e. are equal
as sequences); `areBuffersEqual x x` always holds; and differing
lengths yield false (the loop never runs there — the length guard
precedes it in the source). -/
theorem areBuffersEqual_spec (x y : WsBuffer) :
    (areBuffersEqual (.val x) (.val y) = true ↔ x = y)
      ∧ areBuffersEqual (.val x) (.val x) = true
      ∧ (x.length ≠ y.length → areBuffersEqual (.val x) (.val y) = false) := by
  refine ⟨?_, ?_, ?_⟩
  · by_cases hlen : x.length = y.length
    · simp only [areBuffersEqual, if_neg (by omega : ¬x.length ≠ y.length)]
      exact byteLoop_iff hlen
    · simp only [areBuffersEqual, if_pos hlen]
      constructor
      · intro h; cases h
      · intro h; subst h; exact absurd rfl hlen
  · simp only [areBuffersEqual, if_neg (by omega : ¬x.length ≠ x.length)]
    exact (byteLoop_iff rfl).mpr rfl
  · intro hlen
    simp only [areBuffersEqual, if_pos hlen]

/-- C8 witness: the specification applied at concrete buffers. -/
theorem areBuffersEqual_spec_witness :
    (['k'].length ≠ ['k', 'x'].length
        ∧ areBuffersEqual (.val ['k']) (.val ['k', 'x']) = false)
      ∧ areBuffersEqual (.val ['k', 'x']) (.val ['k', 'x']) = true := by
  refine ⟨⟨by decide, (areBuffersEqual_spec ['k'] ['k', 'x']).2.2 (by decide)⟩, ?_⟩
  exact (areBuffersEqual_spec ['k', 'x'] ['k', 'x']).2.1

/-! ### Claim C7: the envelope round trip -/

/-- C7: decoding the bytes produced by encoding any `(type, data, ref)`
triple yields the same type, structurally equal data and structurally
equal ref; an absent `data` or `ref` decodes as absent. -/
theorem envelope_roundtrip (t : List Char) (d r : Option JsVal) :
    decodeEnvelope (encodeEnvelope t d r) = some (t, d, r) := by
  unfold decodeEnvelope encodeEnvelope
  rw [parsePrintedVal]
  obtain ⟨h1, h2, h3⟩ := envelopeJson_fields t d r
  have hfalsy : jsFalsy (envelopeJson t d r) = false := rfl
  simp [hfalsy, h1, h2, h3]

/-! ### Claim C6: the connection facade's send -/

/-- C6, against the source as written: `SimpleWebSocketClient.send`
REJECTS its promise (with `undefined`) exactly when the transport
write succeeds and resolves it when the write reports an error — the
two callback branches are swapped — while its sibling
`SimpleWebSocket.send` resolves on success and rejects with the error
on failure. -/
theorem clientSend_promise_inverted :
    simpleWebSocketClientSendPromise none = .rejected none
      ∧ simpleWebSocketClientSendPromise (some (.prim ['e'])) = .resolved
      ∧ (∀ e : Option JsError, simpleWebSocketSendPromise e = .resolved ↔ e = none)
      ∧ (∀ e : JsError, simpleWebSocketSendPromise (some e) = .rejected (some e)) := by
  refine ⟨rfl, rfl, ?_, fun e => rfl⟩
  intro e
  cases e <;> simp [simpleWebSocketSendPromise]

/-! ### Claim C5: broadcast -/

/-- C5 counterexample: broadcasting over three registered connections
where the middle send rejects — every client's send is still initiated
and the other two succeed, but the broadcast call itself REJECTS (with
the failure), because the source awaits `Promise.all`, not a
best-effort variant. -/
theorem broadcast_rejects_counterexample :
    (serverBroadcast
        [⟨fun _ => .ok ()⟩, ⟨fun _ => .error (.prim ['g'])⟩, ⟨fun _ => .ok ()⟩]
        okType none none).1
      = [.ok (), .error (.prim ['g']), .ok ()]
      ∧ (serverBroadcast
          [⟨fun _ => .ok ()⟩, ⟨fun _ => .error (.prim ['g'])⟩, ⟨fun _ => .ok ()⟩]
          okType none none).2
        = .error (.prim ['g']) := ⟨rfl, rfl⟩

/-- `Promise.all` fulfils exactly when every constituent fulfilled. -/
theorem promiseAll_ok_iff : ∀ rs : List (Except JsError Unit),
    (promiseAll rs = .ok () ↔ ∀ x ∈ rs, x = .ok ())
  | [] => by simp [promiseAll]
  | .ok () :: rest => by simp [promiseAll, promiseAll_ok_iff rest]
  | .error e :: rest => by simp [promiseAll]

/-- C5 as amended: the broadcast initiates one send per currently
registered connection, all with the same envelope, so one connection's
failure does not prevent the sends to the others; but the broadcast
promise itself fulfils only when every send does — with any failure it
rejects (with the first one) rather than resolving. -/
theorem serverBroadcast_spec (clients : List BClient) (t : List Char)
    (d r : Option JsVal) :
    (serverBroadcast clients t d r).1
        = clients.map (fun c => c.sendOutcome ⟨t, d, r⟩)
      ∧ ((serverBroadcast clients t d r).2 = .ok ()
          ↔ ∀ x ∈ (serverBroadcast clients t d r).1, x = .ok ()) :=
  ⟨rfl, promiseAll_ok_iff _⟩

/-! ### Dispatch lemmas (for C3 and C4) -/

theorem sendActs_append (a b : List Act) :
    sendActs (a ++ b) = sendActs a ++ sendActs b := by
  simp [sendActs, List.filter_append]

/-- Closing produces no send action. -/
theorem closeConn_sendActs (st : ConnState) : sendActs (closeConn st).2 = [] := by
  unfold closeConn
  by_cases h : st.closed = true <;> simp [h, sendActs]

/-- A reply write contributes exactly its send action to the
send-filtered trace, whatever the close bookkeeping adds. -/
theorem sendAndMaybeClose_sendActs (msg : OutMsg) (ok : Bool) (r : StRes) :
    sendActs (sendAndMaybeClose msg ok r).acts
      = sendActs r.acts ++ [Act.send msg ok] := by
  by_cases hok : ok = true
  · subst hok
    show sendActs (r.acts ++ [Act.send msg true]) = _
    rw [sendActs_append]
    simp [sendActs]
  · simp only [Bool.not_eq_true] at hok
    subst hok
    show sendActs ((r.acts ++ [Act.send msg false]) ++ (closeConn r.st).2) = _
    rw [sendActs_append, sendActs_append, closeConn_sendActs]
    simp [sendActs]

/-- Dispatch over items whose filters return and whose accepted
handlers settle: the loop never aborts, and its send actions are
exactly one reply per accepted item, in registration order. -/
theorem runHandlers_noThrow (m : JsVal) :
    ∀ (hs : List HandlerItem) (r : StRes),
    (∀ h ∈ hs, ∃ b, h.filter m = Except.ok b) →
    (∀ h ∈ hs, h.filter m = Except.ok true → ∃ out, h.run m = Except.ok out) →
    (runHandlers m hs r).2 = false
      ∧ sendActs (runHandlers m hs r).1.acts = sendActs r.acts ++ matchedReplies hs m := by
  intro hs
  induction hs with
  | nil =>
    intro r _ _
    exact ⟨rfl, by simp [runHandlers, matchedReplies]⟩
  | cons h hs ih =>
    intro r hf hr
    obtain ⟨b, hb⟩ := hf h (by simp)
    have hftail : ∀ h2 ∈ hs, ∃ b2, h2.filter m = Except.ok b2 :=
      fun h2 hh2 => hf h2 (by simp [hh2])
    have hrtail : ∀ h2 ∈ hs, h2.filter m = Except.ok true → ∃ out, h2.run m = Except.ok out :=
      fun h2 hh2 => hr h2 (by simp [hh2])
    cases b with
    | false =>
      have hstep : runHandler m h r = (r, false) := by
        simp [runHandler, hb]
      have hrw : runHandlers m (h :: hs) r = runHandlers m hs r := by
        simp [runHandlers, hstep]
      have hmr : matchedReplies (h :: hs) m = matchedReplies hs m := by
        simp [matchedReplies, hb]
      rw [hrw, hmr]
      exact ih r hftail hrtail
    | true =>
      obtain ⟨out, hout⟩ := hr h (by simp) hb
      have hstep : runHandler m h r
          = (sendAndMaybeClose (replyMsg m out) h.replySendOk r, false) := by
        simp [runHandler, hb, hout]
      have hrw : runHandlers m (h :: hs) r
          = runHandlers m hs (sendAndMaybeClose (replyMsg m out) h.replySendOk r) := by
        simp [runHandlers, hstep]
      have hmr : matchedReplies (h :: hs) m
          = Act.send (replyMsg m out) h.replySendOk :: matchedReplies hs m := by
        simp [matchedReplies, hb, hout]
      rw [hrw, hmr]
      obtain ⟨habort, hsends⟩ :=
        ih (sendAndMaybeClose (replyMsg m out) h.replySendOk r) hftail hrtail
      refine ⟨habort, ?_⟩
      rw [hsends, sendAndMaybeClose_sendActs]
      simp

/-- On a well-formed frame, the authenticated branch is the dispatch
path. -/
theorem authedFrame_dispatch (env : ServerEnv) (st : ConnState) (data : WsData)
    (m : JsVal)
    (hvalid : isValidSocketData data = true)
    (hparse : jsonParse (asBuffer data) = some m)
    (hfalsy : jsFalsy m = false)
    (htype : hasStrType m = true) :
    authedFrame env st data
      = (match runHandlers m env.handlers ⟨st, []⟩ with
        | (r, true) => ⟨st, r.st, r.acts⟩
        | (r, false) => ⟨st, r.st, r.acts ++ [Act.emitMessage m]⟩) := by
  unfold authedFrame
  rw [hparse]
  simp [hvalid, hfalsy, htype]

/-! ### Claim C3: one reply per matching handler, no short-circuit -/

/-- C3: on a valid inbound envelope, with every registered filter
returning a boolean on it and every accepted handler reaching a
settled outcome, the frame's transport sends are exactly one reply per
accepted `(filter, handler)` pair, in registration order
(`matchedReplies` walks the registration list); each reply is
`{type: ok, data: result, ref: M.ref}` on fulfilment and
`{type: error, data: normalised error, ref: M.ref}` on rejection, so
two accepted items yield two independent replies sharing the inbound
`ref`. -/
theorem dispatch_replies (env : ServerEnv) (st : ConnState) (data : WsData)
    (m : JsVal)
    (hauth : st.authed = true)
    (hvalid : isValidSocketData data = true)
    (hparse : jsonParse (asBuffer data) = some m)
    (hfalsy : jsFalsy m = false)
    (htype : hasStrType m = true)
    (hfilters : ∀ h ∈ env.handlers, ∃ b, h.filter m = Except.ok b)
    (hruns : ∀ h ∈ env.handlers, h.filter m = Except.ok true →
        ∃ out, h.run m = Except.ok out) :
    sendActs (serverOnMessage env st data).acts = matchedReplies env.handlers m
      ∧ (∀ res : Option JsVal,
          replyMsg m (Except.ok res) = ⟨okType, res, getField m refKey⟩)
      ∧ (∀ e : JsError,
          replyMsg m (Except.error e)
            = ⟨errorType, some (errorData e), getField m refKey⟩) := by
  refine ⟨?_, fun res => rfl, fun e => rfl⟩
  have hframe : serverOnMessage env st data = authedFrame env st data := by
    simp [serverOnMessage, hauth]
  rw [hframe, authedFrame_dispatch env st data m hvalid hparse hfalsy htype]
  obtain ⟨habort, hsends⟩ :=
    runHandlers_noThrow m env.handlers ⟨st, []⟩ hfilters hruns
  rcases hsplit : runHandlers m env.handlers ⟨st, []⟩ with ⟨r, flag⟩
  rw [hsplit] at habort hsends
  simp only at habort
  subst habort
  simp only
  rw [sendActs_append, hsends]
  simp [sendActs]

/-! ### Claim C4: publication to connection-level observers -/

/-- Closing a still-open connection: out of the list, closed, one
`close` event. -/
theorem closeConn_open (st : ConnState) (h : st.closed = false) :
    closeConn st = ({ st with inList := false, closed := true }, [Act.emitClose]) := by
  unfold closeConn
  simp [h]

/-- C4 counterexample: an authenticated connection, one registered
handler whose filter throws synchronously, and a perfectly valid
envelope `{"type":"a"}` — the loop aborts through the `catch`'s
`return` after sending the error reply, so the raw envelope is NEVER
published to the connection-level `message` observers, contrary to the
claim's "in particular also when a filter or handler throws". -/
theorem filter_throw_skips_publish :
    (serverOnMessage
        ⟨none,
          [⟨fun _ => Except.error (JsError.prim ['x']),
            fun _ => Except.ok (Except.ok none), true⟩],
          true, true⟩
        ⟨true, true, false⟩
        (.str ['\x7b', '"', 't', 'y', 'p', 'e', '"', ':', '"', 'a', '"', '\x7d'])).acts
      = [Act.send ⟨errorType, some (.str ['x']), none⟩ true]
      ∧ ∀ m, Act.emitMessage m ∉
          (serverOnMessage
            ⟨none,
              [⟨fun _ => Except.error (JsError.prim ['x']),
                fun _ => Except.ok (Except.ok none), true⟩],
              true, true⟩
            ⟨true, true, false⟩
            (.str ['\x7b', '"', 't', 'y', 'p', 'e', '"', ':', '"', 'a', '"', '\x7d'])).acts := by
  refine ⟨rfl, ?_⟩
  intro m hm
  rw [show (serverOnMessage
        ⟨none,
          [⟨fun _ => Except.error (JsError.prim ['x']),
            fun _ => Except.ok (Except.ok none), true⟩],
          true, true⟩
        ⟨true, true, false⟩
        (.str ['\x7b', '"', 't', 'y', 'p', 'e', '"', ':', '"', 'a', '"', '\x7d'])).acts
      = [Act.send ⟨errorType, some (.str ['x']), none⟩ true] from rfl] at hm
  simp at hm

/-- C4 as amended: after dispatch of a valid inbound envelope
completes — regardless of whether any handler matched and of the
matched handlers' settled outcomes — the raw envelope is published to
the connection-level `message` observers, PROVIDED no filter or
handler threw synchronously during the loop (a synchronous throw
aborts the loop before the publication step). -/
theorem dispatch_publishes (env : ServerEnv) (st : ConnState) (data : WsData)
    (m : JsVal)
    (hauth : st.authed = true)
    (hvalid : isValidSocketData data = true)
    (hparse : jsonParse (asBuffer data) = some m)
    (hfalsy : jsFalsy m = false)
    (htype : hasStrType m = true)
    (hfilters : ∀ h ∈ env.handlers, ∃ b, h.filter m = Except.ok b)
    (hruns : ∀ h ∈ env.handlers, h.filter m = Except.ok true →
        ∃ out, h.run m = Except.ok out) :
    Act.emitMessage m ∈ (serverOnMessage env st data).acts := by
  have hframe : serverOnMessage env st data = authedFrame env st data := by
    simp [serverOnMessage, hauth]
  rw [hframe, authedFrame_dispatch env st data m hvalid hparse hfalsy htype]
  obtain ⟨habort, _⟩ := runHandlers_noThrow m env.handlers ⟨st, []⟩ hfilters hruns
  rcases hsplit : runHandlers m env.handlers ⟨st, []⟩ with ⟨r, flag⟩
  rw [hsplit] at habort
  simp only at habort
  subst habort
  simp

/-! ### Claim C2: malformed frames on an authenticated connection -/

/-- C2: a malformed frame on an authenticated, still-open connection —
invalid socket data, unparseable text, a falsy parse, or a missing or
non-string `type` — closes the connection; the whole action trace is a
single `close` event: no reply of any kind is sent, and the close
event fires exactly once. -/
theorem malformed_closes (env : ServerEnv) (st : ConnState) (data : WsData)
    (hauth : st.authed = true) (hopen : st.closed = false)
    (hmal : malformedFrame data = true) :
    (serverOnMessage env st data).final.closed = true
      ∧ (serverOnMessage env st data).acts = [Act.emitClose] := by
  have hframe : serverOnMessage env st data = authedFrame env st data := by
    simp [serverOnMessage, hauth]
  have hclose := closeConn_open st hopen
  rw [hframe]
  unfold authedFrame
  unfold malformedFrame at hmal
  by_cases hv : isValidSocketData data = true
  · simp only [hv] at hmal ⊢
    rcases hp : jsonParse (asBuffer data) with _ | m
    · simp [hclose]
    · by_cases hf : jsFalsy m = true
      · simp [hf, hclose]
      · simp only [Bool.not_eq_true] at hf
        have ht : hasStrType m = false := by
          rw [hp] at hmal
          simpa [hf] using hmal
        simp [hf, ht, hclose]
  · simp only [Bool.not_eq_true] at hv
    simp [hv, hclose]

/-! ### Claim C1: the authentication gate -/

/-- C1: an unauthenticated, still-open connection with a configured
key, receiving its first valid frame.  If the frame's bytes differ
from the key, the connection ends closed, never authenticated, never
in the peer registry, and the trace is the best-effort `auth_failed`
notice followed by the single close — no `connection` event.  If the
bytes equal the key exactly, the connection is authenticated and in
the peer registry when the listener returns. -/
theorem auth_gate (env : ServerEnv) (st : ConnState) (data : WsData) (kb : WsBuffer)
    (hunauth : st.authed = false) (hopen : st.closed = false)
    (hkey : serverKey env.key = some kb)
    (hvalid : isValidSocketData data = true) :
    (areBuffersEqual (.val (asBuffer data)) (.val kb) = false →
        (serverOnMessage env st data).final.closed = true
          ∧ (serverOnMessage env st data).final.authed = false
          ∧ (serverOnMessage env st data).final.inList = false
          ∧ (serverOnMessage env st data).sync.authed = false
          ∧ (serverOnMessage env st data).acts
              = [Act.send ⟨authFailedType, none, none⟩ env.authFailedSendOk,
                  Act.emitClose])
      ∧ (areBuffersEqual (.val (asBuffer data)) (.val kb) = true →
          (serverOnMessage env st data).sync.authed = true
            ∧ (serverOnMessage env st data).sync.inList = true) := by
  have hframe : serverOnMessage env st data = unauthFrame env st data := by
    simp [serverOnMessage, hunauth]
  have hclose := closeConn_open st hopen
  rw [hframe]
  unfold unauthFrame
  rw [hkey]
  constructor
  · intro hne
    simp [hvalid, hne, hclose, hunauth]
  · intro heq
    by_cases hok : env.okSendOk = true <;> simp [hvalid, heq, acceptConn, hok]

/-! ### Claim C9: a falsy key disables the gate -/

/-- C9: with a falsy configured key — absent, `null`, `undefined`, or
the empty string — the `key` getter returns `null`, the listener
behaves exactly as with no key configured at all, and any valid first
frame authenticates the connection. -/
theorem falsy_key_like_none (k : Option KeyVal) (hk : keyTruthy k = false) :
    serverKey k = none
      ∧ (∀ (env : ServerEnv) (st : ConnState) (data : WsData), env.key = k →
          serverOnMessage env st data
            = serverOnMessage ⟨none, env.handlers, env.okSendOk, env.authFailedSendOk⟩ st data)
      ∧ (∀ (env : ServerEnv) (st : ConnState) (data : WsData), env.key = k →
          st.authed = false → isValidSocketData data = true →
          (serverOnMessage env st data).sync.authed = true
            ∧ (serverOnMessage env st data).sync.inList = true) := by
  have hsk : serverKey k = none := by simp [serverKey, hk]
  refine ⟨hsk, ?_, ?_⟩
  · intro env st data henv
    obtain ⟨ek, ehs, eok, eaf⟩ := env
    have hek : ek = k := henv
    subst hek
    unfold serverOnMessage authedFrame unauthFrame
    rw [show serverKey (⟨ek, ehs, eok, eaf⟩ : ServerEnv).key = none from hsk]
    rfl
  · intro env st data henv hunauth hvalid
    have hke : serverKey env.key = none := by rw [henv]; exact hsk
    have hframe : serverOnMessage env st data = unauthFrame env st data := by
      simp [serverOnMessage, hunauth]
    rw [hframe]
    unfold unauthFrame
    rw [hke]
    by_cases hok : env.okSendOk = true <;> simp [hvalid, acceptConn, hok]

/-! ### Claim C10: the post-authentication `ok` notice -/

/-- C10: on every successful authentication the server sends the bare
`{type: ok}` envelope — no `data`, no `ref` — to the new peer; the
`connection` event follows exactly when that send resolves; when it
rejects, the connection is closed and dropped from the client list
instead, and no `connection` event is emitted (the trace equality
decides both). -/
theorem auth_success_notice (env : ServerEnv) (st : ConnState) (data : WsData)
    (hunauth : st.authed = false) (hopen : st.closed = false)
    (hvalid : isValidSocketData data = true)
    (hpass : serverKey env.key = none
        ∨ ∃ kb, serverKey env.key = some kb
            ∧ areBuffersEqual (.val (asBuffer data)) (.val kb) = true) :
    (serverOnMessage env st data).acts
        = Act.send ⟨okType, none, none⟩ env.okSendOk
            :: (if env.okSendOk then [Act.emitConnection] else [Act.emitClose])
      ∧ (serverOnMessage env st data).final.authed = true
      ∧ (env.okSendOk = true →
          (serverOnMessage env st data).final.inList = true
            ∧ (serverOnMessage env st data).final.closed = false)
      ∧ (env.okSendOk = false →
          (serverOnMessage env st data).final.inList = false
            ∧ (serverOnMessage env st data).final.closed = true) := by
  have hframe : serverOnMessage env st data = unauthFrame env st data := by
    simp [serverOnMessage, hunauth]
  have haccept : unauthFrame env st data = acceptConn env st := by
    unfold unauthFrame
    rcases hpass with hnone | ⟨kb, hkb, heq⟩
    · rw [hnone]
      simp [hvalid]
    · rw [hkb]
      simp [hvalid, heq]
  rw [hframe, haccept]
  by_cases hok : env.okSendOk = true <;>
    simp [acceptConn, hok, closeConn, hopen]

/-! ### Witnesses -/

/-- C1 witness: key `"k"`; the frame `"x"` is refused and the frame
`"k"` authenticates. -/
theorem auth_gate_witness :
    serverKey (some (KeyVal.str ['k'])) = some ['k']
      ∧ ((serverOnMessage ⟨some (.str ['k']), [], true, true⟩
            ⟨false, false, false⟩ (.buf ['x'])).final.closed = true
          ∧ (serverOnMessage ⟨some (.str ['k']), [], true, true⟩
              ⟨false, false, false⟩ (.buf ['x'])).final.authed = false
          ∧ (serverOnMessage ⟨some (.str ['k']), [], true, true⟩
              ⟨false, false, false⟩ (.buf ['x'])).final.inList = false)
      ∧ ((serverOnMessage ⟨some (.str ['k']), [], true, true⟩
            ⟨false, false, false⟩ (.buf ['k'])).sync.authed = true
          ∧ (serverOnMessage ⟨some (.str ['k']), [], true, true⟩
              ⟨false, false, false⟩ (.buf ['k'])).sync.inList = true) := by
  refine ⟨rfl, ?_, ?_⟩
  · have h := (auth_gate ⟨some (.str ['k']), [], true, true⟩ ⟨false, false, false⟩
      (.buf ['x']) ['k'] rfl rfl rfl rfl).1 rfl
    exact ⟨h.1, h.2.1, h.2.2.1⟩
  · exact (auth_gate ⟨some (.str ['k']), [], true, true⟩ ⟨false, false, false⟩
      (.buf ['k']) ['k'] rfl rfl rfl rfl).2 rfl

/-- C2 witness: the unparseable frame `"?"` on an authenticated
connection. -/
theorem malformed_closes_witness :
    malformedFrame (.str ['?']) = true
      ∧ (serverOnMessage ⟨none, [], true, true⟩ ⟨true, true, false⟩
          (.str ['?'])).final.closed = true
      ∧ (serverOnMessage ⟨none, [], true, true⟩ ⟨true, true, false⟩
          (.str ['?'])).acts = [Act.emitClose] :=
  ⟨rfl,
    (malformed_closes ⟨none, [], true, true⟩ ⟨true, true, false⟩ (.str ['?'])
      rfl rfl rfl).1,
    (malformed_closes ⟨none, [], true, true⟩ ⟨true, true, false⟩ (.str ['?'])
      rfl rfl rfl).2⟩

/-- C3 witness: two always-matching handlers on the envelope
`{"type":"a","ref":"r"}` produce two `ok` replies, both carrying
`ref: "r"`. -/
theorem dispatch_replies_witness :
    jsonParse (asBuffer (.str ['\x7b', '"', 't', 'y', 'p', 'e', '"', ':', '"', 'a',
        '"', ',', '"', 'r', 'e', 'f', '"', ':', '"', 'r', '"', '\x7d']))
      = some (.obj [(typeKey, .str ['a']), (refKey, .str ['r'])])
      ∧ sendActs (serverOnMessage
          ⟨none,
            [⟨fun _ => Except.ok true, fun _ => Except.ok (Except.ok (some (.num 1))), true⟩,
              ⟨fun _ => Except.ok true, fun _ => Except.ok (Except.ok (some (.num 2))), true⟩],
            true, true⟩
          ⟨true, true, false⟩
          (.str ['\x7b', '"', 't', 'y', 'p', 'e', '"', ':', '"', 'a',
            '"', ',', '"', 'r', 'e', 'f', '"', ':', '"', 'r', '"', '\x7d'])).acts
        = [Act.send ⟨okType, some (.num 1), some (.str ['r'])⟩ true,
            Act.send ⟨okType, some (.num 2), some (.str ['r'])⟩ true] := by
  refine ⟨rfl, ?_⟩
  have h := (dispatch_replies
    ⟨none,
      [⟨fun _ => Except.ok true, fun _ => Except.ok (Except.ok (some (.num 1))), true⟩,
        ⟨fun _ => Except.ok true, fun _ => Except.ok (Except.ok (some (.num 2))), true⟩],
      true, true⟩
    ⟨true, true, false⟩
    (.str ['\x7b', '"', 't', 'y', 'p', 'e', '"', ':', '"', 'a',
      '"', ',', '"', 'r', 'e', 'f', '"', ':', '"', 'r', '"', '\x7d'])
    (.obj [(typeKey, .str ['a']), (refKey, .str ['r'])])
    rfl rfl rfl rfl rfl
    (by intro h hh; fin_cases hh <;> exact ⟨true, rfl⟩)
    (by intro h hh; fin_cases hh <;> exact fun _ => ⟨_, rfl⟩)).1
  rw [h]
  rfl

/-- C4 witness (for the amended claim): one matching, settling handler
on a valid envelope — the raw envelope is published. -/
theorem dispatch_publishes_witness :
    Act.emitMessage (.obj [(typeKey, .str ['a'])])
      ∈ (serverOnMessage
          ⟨none, [⟨fun _ => Except.ok true, fun _ => Except.ok (Except.ok none), true⟩],
            true, true⟩
          ⟨true, true, false⟩
          (.str ['\x7b', '"', 't', 'y', 'p', 'e', '"', ':', '"', 'a', '"', '\x7d'])).acts :=
  dispatch_publishes
    ⟨none, [⟨fun _ => Except.ok true, fun _ => Except.ok (Except.ok none), true⟩],
      true, true⟩
    ⟨true, true, false⟩
    (.str ['\x7b', '"', 't', 'y', 'p', 'e', '"', ':', '"', 'a', '"', '\x7d'])
    (.obj [(typeKey, .str ['a'])])
    rfl rfl rfl rfl rfl
    (by intro h hh; fin_cases hh; exact ⟨true, rfl⟩)
    (by intro h hh; fin_cases hh; exact fun _ => ⟨_, rfl⟩)

/-- C9 witness: the empty-string key is falsy, its getter yields
`null`, and a first frame authenticates without any comparison. -/
theorem falsy_key_witness :
    keyTruthy (some (KeyVal.str [])) = false
      ∧ serverKey (some (KeyVal.str [])) = none
      ∧ (serverOnMessage ⟨some (.str []), [], true, true⟩ ⟨false, false, false⟩
          (.buf ['z'])).sync.authed = true := by
  refine ⟨rfl, (falsy_key_like_none (some (KeyVal.str [])) rfl).1, ?_⟩
  exact ((falsy_key_like_none (some (KeyVal.str [])) rfl).2.2
    ⟨some (.str []), [], true, true⟩ ⟨false, false, false⟩ (.buf ['z'])
    rfl rfl rfl).1

/-- C10 witness: with no key configured, the first frame triggers the
bare `ok` notice; a resolving send is followed by the `connection`
event, a rejecting one by the close. -/
theorem auth_success_witness :
    (serverOnMessage ⟨none, [], true, true⟩ ⟨false, false, false⟩ (.buf ['a'])).acts
        = [Act.send ⟨okType, none, none⟩ true, Act.emitConnection]
      ∧ (serverOnMessage ⟨none, [], false, true⟩ ⟨false, false, false⟩ (.buf ['a'])).acts
        = [Act.send ⟨okType, none, none⟩ false, Act.emitClose] := by
  constructor
  · have h := (auth_success_notice ⟨none, [], true, true⟩ ⟨false, false, false⟩
      (.buf ['a']) rfl rfl rfl (Or.inl rfl)).1
    simpa using h
  · have h := (auth_success_notice ⟨none, [], false, true⟩ ⟨false, false, false⟩
      (.buf ['a']) rfl rfl rfl (Or.inl rfl)).1
    simpa using h
